import Mathlib

/-!
Shallow embedding of `src/lib/python/ensembl/brc4/runnable/manifest_stats.py`
(the `manifest_stats` runnable of ensembl-genomio), together with proofs
checking the natural-language specification against it.

Modelling conventions:
* Python dicts deserialized from JSON become structures whose possibly-missing
  keys are `Option` fields; a `KeyError` on a missing key becomes `Option`
  failure (`none`) of the surrounding computation.
* Python dicts used as insertion-ordered accumulators (`coord_systems`,
  `biotypes`) become association lists that keep insertion order.
* `statistics.mean` computes the exact arithmetic mean; it is modelled in `ℚ`.
  The `"%9d"` rendering of a Python number truncates it toward zero
  (`int(x)`), modelled by `pyTrunc`.
* `pathlib` paths are modelled as strings, `/`-joining as string joining.
-/

namespace ManifestStats

/-- Python `"%<w>s"` / `"%<w>d"` padding: left-pad with spaces to width `w`. -/
def padLeft (w : Nat) (s : String) : String :=
  if s.length < w then String.mk (List.replicate (w - s.length) ' ') ++ s else s

/-- Python `int(x)` applied to an exact rational: truncation toward zero.
This is what `"%9d" % x` does to a non-integer numeric value `x`. -/
def pyTrunc (q : ℚ) : Int :=
  if 0 ≤ q then ⌊q⌋ else ⌈q⌉

/-- Python `min(lengths)` on a non-empty list (junk value 0 on `[]`,
unreachable because groups are non-empty by construction). -/
def listMin : List Int → Int
  | [] => 0
  | x :: xs => xs.foldl min x

/-- Python `max(lengths)` on a non-empty list (junk value 0 on `[]`). -/
def listMax : List Int → Int
  | [] => 0
  | x :: xs => xs.foldl max x

/-- Python `statistics.mean(lengths)`: the exact arithmetic mean, as a
rational number. -/
def listMeanQ (l : List Int) : ℚ :=
  (l.sum : ℚ) / (l.length : ℚ)

/-- One entry of a seq_region descriptor's `synonyms` list. -/
structure Synonym where
  source : String
  name : String
deriving DecidableEq, Repr

/-- A sequence-region descriptor as deserialized from the seq_region JSON
file.  Fields that a descriptor may lack are `Option`; `circular` records
mere key presence (the code only tests `"circular" in seqr`). -/
structure SeqRegion where
  name : Option String
  coord_system_level : Option String
  length : Option Int
  synonyms : Option (List Synonym)
  circular : Bool
  codon_table : Option String
  location : Option String
deriving DecidableEq, Repr

/-- The display-name computation of `get_seq_region_stats`:
`genbank = "synonyms" in seqr and [x for x in seqr["synonyms"] if x["source"] == "GenBank"]`
`seqr_name = genbank and genbank[0]["name"] or seqr["name"]`.
Python truthiness: when the first GenBank synonym's name is the empty string
(falsy), or there is no GenBank synonym, the expression falls through to
`seqr["name"]`, which raises `KeyError` (here: `none`) if `name` is missing. -/
def seqrDisplayName (seqr : SeqRegion) : Option String :=
  match seqr.synonyms with
  | none => seqr.name
  | some syns =>
    match syns.filter (fun x => x.source == "GenBank") with
    | [] => seqr.name
    | g :: _ => if g.name = "" then seqr.name else some g.name

/-- Append `v` to the group keyed `k`, creating the group at the end on
first encounter (Python dict insertion order). -/
def appendToGroup (gs : List (String × List Int)) (k : String) (v : Int) :
    List (String × List Int) :=
  match gs with
  | [] => [(k, [v])]
  | (k2, vs) :: rest =>
    if k2 = k then (k2, vs ++ [v]) :: rest else (k2, vs) :: appendToGroup rest k v

/-- Accumulator state of the first loop of `get_seq_region_stats`. -/
structure SeqState where
  coord_systems : List (String × List Int)
  circular : Nat
  locations : List String
  codon_tables : List String
deriving DecidableEq, Repr

/-- The state before the loop over `seq_regions`. -/
def initSeqState : SeqState :=
  { coord_systems := [], circular := 0, locations := [], codon_tables := [] }

/-- One iteration of the `for seqr in seq_regions` loop.  Field accesses
happen in source order: display name, then `coord_system_level`, then
`length`; a missing key aborts with `none`. -/
def processSeqr (st : SeqState) (seqr : SeqRegion) : Option SeqState :=
  match seqrDisplayName seqr with
  | none => none
  | some seqr_name =>
    match seqr.coord_system_level with
    | none => none
    | some coord_level =>
      match seqr.length with
      | none => none
      | some len =>
        some { coord_systems := appendToGroup st.coord_systems coord_level len
             , circular := st.circular + (if seqr.circular then 1 else 0)
             , locations := st.locations ++
                 (match seqr.location with
                  | some loc => [seqr_name ++ " = " ++ loc]
                  | none => [])
             , codon_tables := st.codon_tables ++
                 (match seqr.codon_table with
                  | some ct => [seqr_name ++ " = " ++ ct]
                  | none => []) }

/-- The whole loop over `seq_regions`; the first missing required key
aborts the analyzer. -/
def processAll (st : SeqState) : List SeqRegion → Option SeqState
  | [] => some st
  | s :: rest =>
    match processSeqr st s with
    | none => none
    | some st2 => processAll st2 rest

/-- One `"%9d\t%s"` statistics row. -/
def fmtRow (n : Int) (label : String) : String :=
  padLeft 9 (toString n) ++ "\t" ++ label

/-- The per-group section: header plus the five numeric rows, in source
order.  The mean is a Python float rendered through `"%9d"`, i.e. truncated
toward zero. -/
def groupLines (p : String × List Int) : List String :=
  [ "\nCoord_system: " ++ p.1
  , fmtRow (Int.ofNat p.2.length) "Number of sequences"
  , fmtRow p.2.sum "Sequence length sum"
  , fmtRow (listMin p.2) "Sequence length minimum"
  , fmtRow (pyTrunc (listMeanQ p.2)) "Sequence length mean"
  , fmtRow (listMax p.2) "Sequence length maximum" ]

/-- The `Special` section.  Note the source gates the whole section on
`circular or locations`: codon tables alone do not produce it. -/
def specialLines (st : SeqState) : List String :=
  if st.circular ≠ 0 ∨ st.locations ≠ [] then
    ["\nSpecial"]
    ++ (if st.circular ≠ 0 then
          [fmtRow (Int.ofNat st.circular) "circular sequences"] else [])
    ++ (if st.locations ≠ [] then
          fmtRow (Int.ofNat st.locations.length) "sequences with location"
            :: st.locations.map (fun loc => "\t\t\t" ++ loc)
        else [])
    ++ (if st.codon_tables ≠ [] then
          fmtRow (Int.ofNat st.codon_tables.length) "sequences with codon_table"
            :: st.codon_tables.map (fun t => "\t\t\t" ++ t)
        else [])
  else []

/-- Assembling the stats lines from the accumulated state. -/
def renderSeqStats (fname : String) (st : SeqState) : List String :=
  [fname, "Total coord_systems " ++ toString st.coord_systems.length]
  ++ st.coord_systems.flatMap groupLines
  ++ specialLines st
  ++ ["\n"]

/-- `get_seq_region_stats`, with the JSON list already deserialized and the
file base name passed as `fname`.  `none` models the `KeyError` raised on a
descriptor that lacks a required key. -/
def get_seq_region_stats (fname : String) (seq_regions : List SeqRegion) :
    Option (List String) :=
  (processAll initSeqState seq_regions).map (renderSeqStats fname)

/-- A GFF3 feature as yielded by `BCBio.GFF`: a `type` (the biotype), an
`id` and recursively nested `sub_features` of unbounded depth. -/
inductive Feature where
  | mk (type : String) (id : String) (sub_features : List Feature)

/-- The feature's biotype (`feature.type`). -/
def Feature.type : Feature → String
  | .mk t _ _ => t

/-- The feature's identifier (`feature.id`). -/
def Feature.id : Feature → String
  | .mk _ i _ => i

/-- The feature's direct children (`feature.sub_features`). -/
def Feature.sub_features : Feature → List Feature
  | .mk _ _ s => s

/-- One `biotypes[biotype]` value: occurrence count and the stored example
id. -/
structure BioData where
  count : Nat
  exampleId : String
deriving DecidableEq, Repr

/-- `biotypes[biotype]["count"] += 1` on the first association-list entry
keyed `k` (the key is unique by construction). -/
def bumpCount (bs : List (String × BioData)) (k : String) :
    List (String × BioData) :=
  match bs with
  | [] => []
  | (k2, d) :: rest =>
    if k2 = k then (k2, { d with count := d.count + 1 }) :: rest
    else (k2, d) :: bumpCount rest k

/-- `increment_biotype`: insert `{"count": 0, "example": feature.id}` if the
biotype is new, then increment its count.  The example id is written only at
first insertion and never afterwards. -/
def increment_biotype (biotypes : List (String × BioData)) (feature : Feature) :
    List (String × BioData) :=
  bumpCount
    (if biotypes.any (fun p => p.1 = feature.type) then biotypes
     else biotypes ++ [(feature.type, { count := 0, exampleId := feature.id })])
    feature.type

/-- The loop body of `parse_gff3` for one record's feature list: tally each
top-level feature, each of its direct children, and each grandchild; deeper
levels are never descended into. -/
def tallyRec (bts : List (String × BioData)) (feats : List Feature) :
    List (String × BioData) :=
  feats.foldl
    (fun bts feat =>
      (feat.sub_features).foldl
        (fun bts feat2 =>
          (feat2.sub_features).foldl increment_biotype
            (increment_biotype bts feat2))
        (increment_biotype bts feat))
    bts

/-- The `biotypes` dict after the full `for rec in GFF.parse(...)` loop.
A parsed GFF3 stream is modelled as the list of per-record top-level
feature lists. -/
def biotypesOf (recs : List (List Feature)) : List (String × BioData) :=
  recs.foldl tallyRec []

/-- The visit order of `parse_gff3`: per record, per top-level feature, the
feature itself, then each direct child followed by that child's own
children.  Exactly three nesting levels are reached. -/
def featDescend (f : Feature) : List Feature :=
  f :: f.sub_features.flatMap (fun f2 => f2 :: f2.sub_features)

/-- All features visited by `parse_gff3`, in visit order. -/
def visitOrder (recs : List (List Feature)) : List Feature :=
  recs.flatMap (fun feats => feats.flatMap featDescend)

/-- Sum of the `count` fields over a biotype tally. -/
def sumCounts (bs : List (String × BioData)) : Nat :=
  (bs.map (fun p => p.2.count)).sum

/-- Python `sorted` on strings: `≤` by code points, as a Bool. -/
def strLeB (a b : String) : Bool :=
  a ≤ b

/-- The keys of the tally, sorted ascending (`sorted(biotypes.keys())`). -/
def sortedKeys (recs : List (List Feature)) : List String :=
  ((biotypesOf recs).map Prod.fst).mergeSort strLeB

/-- One `"%9d\t%20s\tID = %s"` output line. -/
def biotypeLine (k : String) (d : BioData) : String :=
  padLeft 9 (toString d.count) ++ "\t" ++ padLeft 20 k ++ "\tID = " ++ d.exampleId

/-- `parse_gff3` on an already-parsed stream: tally, sort the biotype names,
and render one line per biotype. -/
def parse_gff3 (recs : List (List Feature)) : List String :=
  (sortedKeys recs).map (fun k =>
    biotypeLine k ((List.lookup k (biotypesOf recs)).getD
      { count := 0, exampleId := "" }))

/-- A sub-entry of a compound manifest entry: an optional `"file"` key. -/
structure SubEntry where
  file : Option String
deriving DecidableEq, Repr

/-- A manifest entry: either it has a `"file"` key itself, or it is a
mapping of sub-names to sub-entries. -/
structure ManifestEntry where
  file : Option String
  subs : List (String × SubEntry)
deriving DecidableEq, Repr

/-- What `get_manifest` leaves at a sub-entry slot: the code replaces a
sub-entry carrying a `"file"` key by the TUPLE `(manifest_root, file_name)`
(it writes `manifest_root, file_name`, not `manifest_root / file_name`),
and leaves other sub-entries unchanged.  `joined` is the shape the spec
describes (a single joined path); the code never produces it. -/
inductive ResolvedSub where
  | pathPair (dir : String) (rel : String)
  | joined (p : String)
  | unchanged (s : SubEntry)
deriving DecidableEq, Repr

/-- What `get_manifest` leaves at a top-level slot. -/
inductive ResolvedEntry where
  | joinedPath (p : String)
  | resolvedSubs (subs : List (String × ResolvedSub))
deriving DecidableEq, Repr

/-- `pathlib` `/`-joining, on string paths. -/
def joinPath (root rel : String) : String :=
  root ++ "/" ++ rel

/-- `get_manifest` after JSON loading: `root` is the manifest's containing
directory.  Top-level entries with a `"file"` key become the joined path;
in the compound branch each sub-entry with a `"file"` key becomes the pair
`(root, file_name)` — the source builds a tuple there, not a path. -/
def get_manifest (root : String) (manifest : List (String × ManifestEntry)) :
    List (String × ResolvedEntry) :=
  manifest.map (fun e =>
    match e.2.file with
    | some f => (e.1, .joinedPath (joinPath root f))
    | none => (e.1, .resolvedSubs (e.2.subs.map (fun s =>
        match s.2.file with
        | some fn => (s.1, .pathPair root fn)
        | none => (s.1, .unchanged s.2)))))

/-- Modelled from the spec: the resolution §6 describes, in which every
relative path — of a plain entry and of each sub-entry of a compound entry —
is joined with the manifest's containing directory. -/
def get_manifest_spec (root : String) (manifest : List (String × ManifestEntry)) :
    List (String × ResolvedEntry) :=
  manifest.map (fun e =>
    match e.2.file with
    | some f => (e.1, .joinedPath (joinPath root f))
    | none => (e.1, .resolvedSubs (e.2.subs.map (fun s =>
        match s.2.file with
        | some fn => (s.1, .joined (joinPath root fn))
        | none => (s.1, .unchanged s.2)))))

/-! ### Helper lemmas: normalizing the nested tally loops to one fold -/

theorem foldl_flatMap {α β γ : Type} (g : α → List β) (f : γ → β → γ)
    (l : List α) (a : γ) :
    (l.flatMap g).foldl f a = l.foldl (fun acc x => (g x).foldl f acc) a := by
  induction l generalizing a with
  | nil => rfl
  | cons x xs ih => simp [List.flatMap_cons, List.foldl_append, ih]

theorem tallyRec_eq (bts : List (String × BioData)) (feats : List Feature) :
    tallyRec bts feats = (feats.flatMap featDescend).foldl increment_biotype bts := by
  rw [foldl_flatMap]
  refine List.foldl_ext _ _ bts (fun b f _ => ?_)
  simp [featDescend, foldl_flatMap, List.foldl_cons]

theorem biotypesOf_eq (recs : List (List Feature)) :
    biotypesOf recs = (visitOrder recs).foldl increment_biotype [] := by
  unfold biotypesOf visitOrder
  rw [foldl_flatMap]
  exact List.foldl_ext _ _ [] (fun b feats _ => tallyRec_eq b feats)

/-! ### Helper lemmas: `increment_biotype` on association lists -/

theorem keys_bumpCount (bs : List (String × BioData)) (k : String) :
    (bumpCount bs k).map Prod.fst = bs.map Prod.fst := by
  induction bs with
  | nil => rfl
  | cons p rest ih =>
    obtain ⟨k2, d⟩ := p
    by_cases h : k2 = k <;> simp [bumpCount, h, ih]

theorem lookup_bumpCount_ne (bs : List (String × BioData)) (k k' : String)
    (h : k' ≠ k) :
    List.lookup k' (bumpCount bs k) = List.lookup k' bs := by
  induction bs with
  | nil => rfl
  | cons p rest ih =>
    obtain ⟨k2, d⟩ := p
    by_cases h2 : k2 = k
    · subst h2
      have hb : (k' == k2) = false := beq_eq_false_iff_ne.mpr h
      simp [bumpCount, List.lookup_cons, hb]
    · simp only [bumpCount, if_neg h2, List.lookup_cons, ih]

theorem lookup_bumpCount_self (bs : List (String × BioData)) (k : String) :
    List.lookup k (bumpCount bs k) =
      (List.lookup k bs).map (fun d => { d with count := d.count + 1 }) := by
  induction bs with
  | nil => rfl
  | cons p rest ih =>
    obtain ⟨k2, d⟩ := p
    by_cases h : k2 = k
    · subst h
      simp [bumpCount, List.lookup_cons]
    · have hb : (k == k2) = false := beq_eq_false_iff_ne.mpr (fun e => h e.symm)
      simp [bumpCount, h, List.lookup_cons, hb, ih]

theorem any_key_eq_isSome (bs : List (String × BioData)) (k : String) :
    bs.any (fun p => p.1 = k) = (List.lookup k bs).isSome := by
  induction bs with
  | nil => rfl
  | cons p rest ih =>
    obtain ⟨k2, d⟩ := p
    by_cases h : k2 = k
    · subst h
      simp [List.lookup_cons]
    · have hb : (k == k2) = false := beq_eq_false_iff_ne.mpr (fun e => h e.symm)
      simp [List.lookup_cons, hb, h, ih]

theorem bumpCount_append_not_mem (bs : List (String × BioData)) (k : String)
    (d : BioData) (h : bs.any (fun p => p.1 = k) = false) :
    bumpCount (bs ++ [(k, d)]) k = bs ++ [(k, { d with count := d.count + 1 })] := by
  induction bs with
  | nil => simp [bumpCount]
  | cons p rest ih =>
    obtain ⟨k2, d2⟩ := p
    simp only [List.any_cons, Bool.or_eq_false_iff, decide_eq_false_iff_not] at h
    simp [bumpCount, h.1, ih h.2]

theorem lookup_inc_self (bs : List (String × BioData)) (f : Feature) :
    List.lookup f.type (increment_biotype bs f) =
      some (match List.lookup f.type bs with
            | none => { count := 1, exampleId := f.id }
            | some d => { count := d.count + 1, exampleId := d.exampleId }) := by
  unfold increment_biotype
  by_cases h : bs.any (fun p => p.1 = f.type) = true
  · rw [if_pos h, lookup_bumpCount_self]
    rw [any_key_eq_isSome] at h
    cases heq : List.lookup f.type bs with
    | none => rw [heq] at h; simp at h
    | some d => simp
  · have hf : bs.any (fun p => p.1 = f.type) = false := Bool.eq_false_iff.mpr h
    rw [if_neg h, bumpCount_append_not_mem bs f.type _ hf]
    have hnone : List.lookup f.type bs = none := by
      have h2 := any_key_eq_isSome bs f.type
      rw [hf] at h2
      cases heq : List.lookup f.type bs with
      | none => rfl
      | some d => rw [heq] at h2; simp at h2
    rw [List.lookup_append, hnone]
    simp

theorem lookup_inc_ne (bs : List (String × BioData)) (f : Feature) (k : String)
    (h : k ≠ f.type) :
    List.lookup k (increment_biotype bs f) = List.lookup k bs := by
  unfold increment_biotype
  by_cases hh : bs.any (fun p => p.1 = f.type) = true
  · rw [if_pos hh, lookup_bumpCount_ne _ _ _ h]
  · have hb : (k == f.type) = false := beq_eq_false_iff_ne.mpr h
    rw [if_neg hh, lookup_bumpCount_ne _ _ _ h, List.lookup_append]
    simp [List.lookup_cons, hb]

/-- The tally after folding `increment_biotype` over a visit list: the entry
of biotype `k` counts the visited features of type `k` and keeps the id of
the FIRST of them. -/
theorem lookup_tally (l : List Feature) (k : String) :
    List.lookup k (l.foldl increment_biotype []) =
      match l.filter (fun f => f.type == k) with
      | [] => none
      | f0 :: fs => some { count := fs.length + 1, exampleId := f0.id } := by
  induction l using List.reverseRecOn with
  | nil => rfl
  | append_singleton l f ih =>
    rw [List.foldl_append, List.foldl_cons, List.foldl_nil, List.filter_append]
    by_cases h : f.type = k
    · subst h
      have hf : List.filter (fun f2 => f2.type == f.type) [f] = [f] := by simp
      rw [hf, lookup_inc_self, ih]
      cases hfl : l.filter (fun f2 => f2.type == f.type) with
      | nil => simp
      | cons f0 fs => simp
    · have hf : List.filter (fun f2 => f2.type == k) [f] = [] := by simp [h]
      rw [hf, List.append_nil, lookup_inc_ne _ _ _ (fun e => h e.symm), ih]

theorem sumCounts_nil : sumCounts [] = 0 := rfl

theorem sumCounts_cons (k : String) (d : BioData) (bs : List (String × BioData)) :
    sumCounts ((k, d) :: bs) = d.count + sumCounts bs := by
  simp [sumCounts]

theorem sumCounts_append (bs cs : List (String × BioData)) :
    sumCounts (bs ++ cs) = sumCounts bs + sumCounts cs := by
  simp [sumCounts]

theorem sumCounts_bumpCount (bs : List (String × BioData)) (k : String)
    (h : bs.any (fun p => p.1 = k) = true) :
    sumCounts (bumpCount bs k) = sumCounts bs + 1 := by
  induction bs with
  | nil => simp at h
  | cons p rest ih =>
    obtain ⟨k2, d⟩ := p
    by_cases h2 : k2 = k
    · simp only [bumpCount, if_pos h2, sumCounts_cons]
      omega
    · simp only [List.any_cons, Bool.or_eq_true, decide_eq_true_eq] at h
      have h3 : rest.any (fun p => p.1 = k) = true := by
        rcases h with h | h
        · exact absurd h h2
        · exact h
      simp only [bumpCount, if_neg h2, sumCounts_cons, ih h3]
      omega

theorem sumCounts_inc (bs : List (String × BioData)) (f : Feature) :
    sumCounts (increment_biotype bs f) = sumCounts bs + 1 := by
  unfold increment_biotype
  by_cases h : bs.any (fun p => p.1 = f.type) = true
  · rw [if_pos h, sumCounts_bumpCount _ _ h]
  · rw [if_neg h, sumCounts_bumpCount, sumCounts_append, sumCounts_cons]
    · rw [sumCounts_nil]
      simp
    · simp [List.any_append]

theorem sumCounts_foldl (l : List Feature) (bs : List (String × BioData)) :
    sumCounts (l.foldl increment_biotype bs) = sumCounts bs + l.length := by
  induction l generalizing bs with
  | nil => simp
  | cons f rest ih =>
    rw [List.foldl_cons, ih, sumCounts_inc]
    simp
    omega

theorem keys_inc (bs : List (String × BioData)) (f : Feature) :
    (increment_biotype bs f).map Prod.fst =
      if bs.any (fun p => p.1 = f.type) = true then bs.map Prod.fst
      else bs.map Prod.fst ++ [f.type] := by
  unfold increment_biotype
  by_cases h : bs.any (fun p => p.1 = f.type) = true
  · rw [if_pos h, if_pos h, keys_bumpCount]
  · rw [if_neg h, if_neg h, keys_bumpCount]
    simp

theorem nodup_keys_foldl (l : List Feature) (bs : List (String × BioData))
    (h : (bs.map Prod.fst).Nodup) :
    ((l.foldl increment_biotype bs).map Prod.fst).Nodup := by
  induction l generalizing bs with
  | nil => exact h
  | cons f rest ih =>
    rw [List.foldl_cons]
    apply ih
    rw [keys_inc]
    by_cases hh : bs.any (fun p => p.1 = f.type) = true
    · rwa [if_pos hh]
    · rw [if_neg hh]
      have hmem : f.type ∉ bs.map Prod.fst := by
        intro hc
        apply hh
        rw [List.any_eq_true]
        obtain ⟨p, hp, he⟩ := List.mem_map.mp hc
        exact ⟨p, hp, by simp [he]⟩
      simp [List.nodup_append, h, hmem]

theorem mem_keys_tally (l : List Feature) (b : String) :
    b ∈ (l.foldl increment_biotype []).map Prod.fst ↔ b ∈ l.map Feature.type := by
  have h1 : b ∈ (l.foldl increment_biotype []).map Prod.fst ↔
      ¬ List.lookup b (l.foldl increment_biotype []) = none := by
    rw [List.lookup_eq_none_iff]
    simp only [List.mem_map, bne_iff_ne, ne_eq, not_forall]
    constructor
    · rintro ⟨p, hp, he⟩
      exact ⟨p, hp, not_not.mpr he.symm⟩
    · rintro ⟨p, hp, he⟩
      exact ⟨p, hp, (not_not.mp he).symm⟩
  rw [h1, lookup_tally]
  cases hfl : l.filter (fun f => f.type == b) with
  | nil =>
    simp only [reduceCtorEq, not_true_eq_false, false_iff]
    intro hc
    obtain ⟨f, hf, he⟩ := List.mem_map.mp hc
    have : f ∈ l.filter (fun f => f.type == b) :=
      List.mem_filter.mpr ⟨hf, by simp [he]⟩
    rw [hfl] at this
    simp at this
  | cons f0 fs =>
    simp only [reduceCtorEq, not_false_eq_true, true_iff]
    have : f0 ∈ l.filter (fun f => f.type == b) := by rw [hfl]; simp
    have h2 := List.mem_filter.mp this
    exact List.mem_map.mpr ⟨f0, h2.1, by simpa using h2.2⟩

/-! ### Helper lemmas: the sequence-region loop -/

theorem processSeqr_some_elim {st : SeqState} {s : SeqRegion} {st' : SeqState}
    (h : processSeqr st s = some st') :
    ∃ nm lvl len, seqrDisplayName s = some nm ∧ s.coord_system_level = some lvl ∧
      s.length = some len ∧
      st'.coord_systems = appendToGroup st.coord_systems lvl len := by
  unfold processSeqr at h
  cases h1 : seqrDisplayName s with
  | none => rw [h1] at h; exact absurd h (by simp)
  | some nm =>
    rw [h1] at h
    cases h2 : s.coord_system_level with
    | none => rw [h2] at h; exact absurd h (by simp)
    | some lvl =>
      rw [h2] at h
      cases h3 : s.length with
      | none => rw [h3] at h; exact absurd h (by simp)
      | some len =>
        rw [h3] at h
        refine ⟨nm, lvl, len, rfl, rfl, rfl, ?_⟩
        rw [← Option.some.inj h]

theorem processSeqr_none_of_bad {st : SeqState} {s : SeqRegion}
    (h : s.coord_system_level = none ∨ s.length = none ∨ seqrDisplayName s = none) :
    processSeqr st s = none := by
  unfold processSeqr
  cases h1 : seqrDisplayName s with
  | none => rfl
  | some nm =>
    cases h2 : s.coord_system_level with
    | none => rfl
    | some lvl =>
      cases h3 : s.length with
      | none => rfl
      | some len =>
        exfalso
        rcases h with h | h | h
        · rw [h2] at h; exact Option.noConfusion h
        · rw [h3] at h; exact Option.noConfusion h
        · rw [h1] at h; exact Option.noConfusion h

theorem processAll_none_of_bad :
    ∀ (l : List SeqRegion) (st : SeqState) (s : SeqRegion), s ∈ l →
      (s.coord_system_level = none ∨ s.length = none ∨ seqrDisplayName s = none) →
      processAll st l = none := by
  intro l
  induction l with
  | nil => intro st s hmem _; exact absurd hmem (List.not_mem_nil s)
  | cons a rest ih =>
    intro st s hmem hbad
    rcases List.mem_cons.mp hmem with he | hmem2
    · subst he
      unfold processAll
      rw [processSeqr_none_of_bad hbad]
    · unfold processAll
      cases hp : processSeqr st a with
      | none => rfl
      | some st2 => exact ih st2 s hmem2 hbad

/-- Total length over all coordinate-system groups. -/
def groupSums (gs : List (String × List Int)) : Int :=
  (gs.map (fun p => p.2.sum)).sum

theorem groupSums_appendToGroup (gs : List (String × List Int)) (k : String)
    (v : Int) :
    groupSums (appendToGroup gs k v) = groupSums gs + v := by
  induction gs with
  | nil => simp [appendToGroup, groupSums]
  | cons p rest ih =>
    obtain ⟨k2, vs⟩ := p
    by_cases h : k2 = k
    · simp only [appendToGroup, if_pos h, groupSums, List.map_cons, List.sum_cons,
        List.sum_append, List.sum_cons, List.sum_nil]
      omega
    · simp only [appendToGroup, if_neg h, groupSums, List.map_cons, List.sum_cons] at *
      omega

theorem processAll_groupSums :
    ∀ (l : List SeqRegion) (st st' : SeqState), processAll st l = some st' →
      groupSums st'.coord_systems =
        groupSums st.coord_systems + (l.filterMap SeqRegion.length).sum := by
  intro l
  induction l with
  | nil =>
    intro st st' h
    unfold processAll at h
    rw [← Option.some.inj h]
    simp
  | cons s rest ih =>
    intro st st' h
    unfold processAll at h
    cases hp : processSeqr st s with
    | none => rw [hp] at h; exact absurd h (by simp)
    | some st2 =>
      rw [hp] at h
      obtain ⟨nm, lvl, len, _, _, hlen, hcs⟩ := processSeqr_some_elim hp
      have hfm : List.filterMap SeqRegion.length (s :: rest) =
          len :: List.filterMap SeqRegion.length rest := by
        simp [List.filterMap_cons, hlen]
      rw [ih st2 st' h, hcs, groupSums_appendToGroup, hfm, List.sum_cons]
      omega

theorem appendToGroup_ne_nil (gs : List (String × List Int)) (k : String)
    (v : Int) (h : ∀ p ∈ gs, p.2 ≠ []) :
    ∀ p ∈ appendToGroup gs k v, p.2 ≠ [] := by
  induction gs with
  | nil =>
    intro p hp
    simp only [appendToGroup, List.mem_singleton] at hp
    subst hp
    simp
  | cons q rest ih =>
    obtain ⟨k2, vs⟩ := q
    intro p hp
    by_cases he : k2 = k
    · simp only [appendToGroup, if_pos he, List.mem_cons] at hp
      rcases hp with hp | hp
      · subst hp; simp
      · exact h p (List.mem_cons_of_mem _ hp)
    · simp only [appendToGroup, if_neg he, List.mem_cons] at hp
      rcases hp with hp | hp
      · subst hp; exact h (k2, vs) (List.mem_cons_self _ _)
      · exact ih (fun q hq => h q (List.mem_cons_of_mem _ hq)) p hp

theorem processAll_groups_ne_nil :
    ∀ (l : List SeqRegion) (st st' : SeqState), processAll st l = some st' →
      (∀ p ∈ st.coord_systems, p.2 ≠ []) →
      ∀ p ∈ st'.coord_systems, p.2 ≠ [] := by
  intro l
  induction l with
  | nil =>
    intro st st' h hne
    unfold processAll at h
    rw [← Option.some.inj h]
    exact hne
  | cons s rest ih =>
    intro st st' h hne
    unfold processAll at h
    cases hp : processSeqr st s with
    | none => rw [hp] at h; exact absurd h (by simp)
    | some st2 =>
      rw [hp] at h
      obtain ⟨nm, lvl, len, _, _, _, hcs⟩ := processSeqr_some_elim hp
      refine ih st2 st' h ?_
      rw [hcs]
      exact appendToGroup_ne_nil _ _ _ hne

/-! ### Helper lemmas: min, mean, max -/

theorem foldl_min_le_init (xs : List Int) : ∀ a : Int, xs.foldl min a ≤ a := by
  induction xs with
  | nil => intro a; simp
  | cons y xs ih =>
    intro a
    calc (y :: xs).foldl min a = xs.foldl min (min a y) := by rw [List.foldl_cons]
    _ ≤ min a y := ih (min a y)
    _ ≤ a := min_le_left a y

theorem init_le_foldl_max (xs : List Int) : ∀ a : Int, a ≤ xs.foldl max a := by
  induction xs with
  | nil => intro a; simp
  | cons y xs ih =>
    intro a
    calc a ≤ max a y := le_max_left a y
    _ ≤ xs.foldl max (max a y) := ih (max a y)
    _ = (y :: xs).foldl max a := by rw [List.foldl_cons]

theorem foldl_min_mul_le_sum (xs : List Int) :
    ∀ a : Int, (xs.foldl min a) * ((xs.length : Int) + 1) ≤ a + xs.sum := by
  induction xs with
  | nil => intro a; simp
  | cons y xs ih =>
    intro a
    rw [List.foldl_cons, List.length_cons, List.sum_cons]
    have h1 := ih (min a y)
    have h2 : xs.foldl min (min a y) ≤ min a y := foldl_min_le_init xs (min a y)
    have h3 : min a y ≤ a := min_le_left a y
    have h4 : min a y ≤ y := min_le_right a y
    have h5 : (xs.foldl min (min a y)) * ((↑(xs.length + 1) : Int) + 1) =
        (xs.foldl min (min a y)) * ((xs.length : Int) + 1) + xs.foldl min (min a y) := by
      push_cast
      ring
    rw [h5]
    linarith

theorem sum_le_foldl_max_mul (xs : List Int) :
    ∀ a : Int, a + xs.sum ≤ (xs.foldl max a) * ((xs.length : Int) + 1) := by
  induction xs with
  | nil => intro a; simp
  | cons y xs ih =>
    intro a
    rw [List.foldl_cons, List.length_cons, List.sum_cons]
    have h1 := ih (max a y)
    have h2 : max a y ≤ xs.foldl max (max a y) := init_le_foldl_max xs (max a y)
    have h3 : a ≤ max a y := le_max_left a y
    have h4 : y ≤ max a y := le_max_right a y
    have h5 : (xs.foldl max (max a y)) * ((↑(xs.length + 1) : Int) + 1) =
        (xs.foldl max (max a y)) * ((xs.length : Int) + 1) + xs.foldl max (max a y) := by
      push_cast
      ring
    rw [h5]
    linarith

theorem listMin_le_meanQ (l : List Int) (h : l ≠ []) :
    (listMin l : ℚ) ≤ listMeanQ l := by
  obtain ⟨x, xs, rfl⟩ := List.exists_cons_of_ne_nil h
  unfold listMin listMeanQ
  have hn : (0 : ℚ) < ((x :: xs).length : ℚ) := by
    simp [List.length_cons]
    positivity
  rw [le_div_iff₀ hn]
  have hm := foldl_min_mul_le_sum xs x
  have : ((xs.foldl min x : Int) : ℚ) * ((((xs.length : Int) : ℚ)) + 1) ≤
      ((x : ℚ) + (xs.sum : ℚ)) := by exact_mod_cast hm
  rw [List.length_cons, List.sum_cons]
  push_cast
  push_cast at this
  linarith

theorem meanQ_le_listMax (l : List Int) (h : l ≠ []) :
    listMeanQ l ≤ (listMax l : ℚ) := by
  obtain ⟨x, xs, rfl⟩ := List.exists_cons_of_ne_nil h
  unfold listMax listMeanQ
  have hn : (0 : ℚ) < ((x :: xs).length : ℚ) := by
    simp [List.length_cons]
    positivity
  rw [div_le_iff₀ hn]
  have hm := sum_le_foldl_max_mul xs x
  have : ((x : ℚ) + (xs.sum : ℚ)) ≤
      ((xs.foldl max x : Int) : ℚ) * ((((xs.length : Int) : ℚ)) + 1) := by
    exact_mod_cast hm
  rw [List.length_cons, List.sum_cons]
  push_cast
  push_cast at this
  linarith

theorem listMin_le_pyTrunc_mean (l : List Int) (h : l ≠ []) :
    listMin l ≤ pyTrunc (listMeanQ l) := by
  have h1 := listMin_le_meanQ l h
  unfold pyTrunc
  by_cases h0 : 0 ≤ listMeanQ l
  · rw [if_pos h0]
    exact Int.le_floor.mpr h1
  · rw [if_neg h0]
    have h2 : (listMin l : ℚ) ≤ (⌈listMeanQ l⌉ : ℚ) := le_trans h1 (Int.le_ceil _)
    exact_mod_cast h2

theorem pyTrunc_mean_le_listMax (l : List Int) (h : l ≠ []) :
    pyTrunc (listMeanQ l) ≤ listMax l := by
  have h1 := meanQ_le_listMax l h
  unfold pyTrunc
  by_cases h0 : 0 ≤ listMeanQ l
  · rw [if_pos h0]
    have h2 : (⌊listMeanQ l⌋ : ℚ) ≤ (listMax l : ℚ) := le_trans (Int.floor_le _) h1
    exact_mod_cast h2
  · rw [if_neg h0]
    exact Int.ceil_le.mpr h1

theorem seqrDisplayName_eq_some (s : SeqRegion) (syns : List Synonym)
    (h : s.synonyms = some syns) :
    seqrDisplayName s =
      match syns.filter (fun x => x.source == "GenBank") with
      | [] => s.name
      | g :: _ => if g.name = "" then s.name else some g.name := by
  unfold seqrDisplayName
  rw [h]

theorem pyTrunc_intCast (z : Int) : pyTrunc (z : ℚ) = z := by
  unfold pyTrunc
  by_cases h : (0 : ℚ) ≤ (z : ℚ)
  · rw [if_pos h, Int.floor_intCast]
  · rw [if_neg h, Int.ceil_intCast]

/-! ### Concrete inputs used by the claims -/

/-- The spec's scenario input: two chromosomes of lengths 1000 and 3000. -/
def scenarioSrs : List SeqRegion :=
  [ { name := some "1", coord_system_level := some "chromosome", length := some 1000,
      synonyms := none, circular := false, codon_table := none, location := none }
  , { name := some "2", coord_system_level := some "chromosome", length := some 3000,
      synonyms := none, circular := false, codon_table := none, location := none } ]

/-- A descriptor with no `name` key but with a GenBank synonym. -/
def c2seqr : SeqRegion :=
  { name := none, coord_system_level := some "chromosome", length := some 100,
    synonyms := some [{ source := "GenBank", name := "CM000001.1" }],
    circular := false, codon_table := none, location := none }

/-- A descriptor with no `length` key. -/
def c2badLen : SeqRegion :=
  { name := some "x", coord_system_level := some "chromosome", length := none,
    synonyms := none, circular := false, codon_table := none, location := none }

/-- A descriptor named `chr1` whose only GenBank synonym has the empty
string as its name. -/
def c7seqr : SeqRegion :=
  { name := some "chr1", coord_system_level := some "chromosome", length := some 100,
    synonyms := some [{ source := "GenBank", name := "" }],
    circular := false, codon_table := none, location := some "loc1" }

/-- The spec's GenBank-substitution example: `chr1` with GenBank synonym
`CM000001.1`, carrying a codon table and a location. -/
def chr1Seqr : SeqRegion :=
  { name := some "chr1", coord_system_level := some "chromosome", length := some 1000,
    synonyms := some [{ source := "GenBank", name := "CM000001.1" }],
    circular := false, codon_table := some "2", location := some "X" }

/-! ### Evaluation of the analyzer on the concrete inputs -/

theorem scenario_stats_eval :
    get_seq_region_stats "seq_region.json" scenarioSrs =
      some [ "seq_region.json", "Total coord_systems 1",
             "\nCoord_system: chromosome",
             "        2\tNumber of sequences", "     4000\tSequence length sum",
             "     1000\tSequence length minimum",
             "     2000\tSequence length mean",
             "     3000\tSequence length maximum", "\n" ] := by
  have hst : processAll initSeqState scenarioSrs =
      some ⟨[("chromosome", [1000, 3000])], 0, [], []⟩ := by decide
  have h1 : listMeanQ [1000, 3000] = ((2000 : Int) : ℚ) := by
    simp [listMeanQ]
    norm_num
  have hm : pyTrunc (listMeanQ [1000, 3000]) = 2000 := by
    rw [h1, pyTrunc_intCast]
  unfold get_seq_region_stats
  rw [hst]
  refine congrArg some ?_
  unfold renderSeqStats
  simp only [groupLines, List.flatMap_cons, List.flatMap_nil]
  simp only [hm]
  decide

theorem c7seqr_stats_eval :
    get_seq_region_stats "seq_region.json" [c7seqr] =
      some [ "seq_region.json", "Total coord_systems 1",
             "\nCoord_system: chromosome",
             "        1\tNumber of sequences", "      100\tSequence length sum",
             "      100\tSequence length minimum",
             "      100\tSequence length mean",
             "      100\tSequence length maximum",
             "\nSpecial", "        1\tsequences with location",
             "\t\t\tchr1 = loc1", "\n" ] := by
  have hst : processAll initSeqState [c7seqr] =
      some ⟨[("chromosome", [100])], 0, ["chr1 = loc1"], []⟩ := by decide
  have h1 : listMeanQ [100] = ((100 : Int) : ℚ) := by
    simp [listMeanQ]
  have hm : pyTrunc (listMeanQ [100]) = 100 := by
    rw [h1, pyTrunc_intCast]
  unfold get_seq_region_stats
  rw [hst]
  refine congrArg some ?_
  unfold renderSeqStats
  simp only [groupLines, List.flatMap_cons, List.flatMap_nil]
  simp only [hm]
  decide

theorem chr1_stats_eval :
    get_seq_region_stats "seq_region.json" [chr1Seqr] =
      some [ "seq_region.json", "Total coord_systems 1",
             "\nCoord_system: chromosome",
             "        1\tNumber of sequences", "     1000\tSequence length sum",
             "     1000\tSequence length minimum",
             "     1000\tSequence length mean",
             "     1000\tSequence length maximum",
             "\nSpecial", "        1\tsequences with location",
             "\t\t\tCM000001.1 = X", "        1\tsequences with codon_table",
             "\t\t\tCM000001.1 = 2", "\n" ] := by
  have hst : processAll initSeqState [chr1Seqr] =
      some ⟨[("chromosome", [1000])], 0, ["CM000001.1 = X"], ["CM000001.1 = 2"]⟩ := by
    decide
  have h1 : listMeanQ [1000] = ((1000 : Int) : ℚ) := by
    simp [listMeanQ]
  have hm : pyTrunc (listMeanQ [1000]) = 1000 := by
    rw [h1, pyTrunc_intCast]
  unfold get_seq_region_stats
  rw [hst]
  refine congrArg some ?_
  unfold renderSeqStats
  simp only [groupLines, List.flatMap_cons, List.flatMap_nil]
  simp only [hm]
  decide

/-! ### Claims about the Sequence-Region Analyzer -/

/-- C2 (counterexample): a descriptor that lacks `name` but carries a
GenBank synonym with a non-empty name does NOT make `get_seq_region_stats`
fail — the short-circuit `genbank and genbank[0]["name"] or seqr["name"]`
never evaluates `seqr["name"]` — contradicting the claim that a descriptor
missing `name` fails regardless of its synonyms. -/
theorem claim_c2_counterexample :
    c2seqr.name = none ∧
    (get_seq_region_stats "seq_region.json" [c2seqr]).isSome = true :=
  ⟨rfl, by decide⟩

/-- C2 (amended): a descriptor missing `coord_system_level` or `length`
always makes the Sequence-Region Analyzer signal a malformed-input failure;
a descriptor missing `name` does so exactly when its display-name lookup
also fails, i.e. when it has no GenBank synonym with a non-empty name. -/
theorem claim_c2 (fname : String) (srs : List SeqRegion) (s : SeqRegion)
    (hmem : s ∈ srs)
    (hbad : s.coord_system_level = none ∨ s.length = none ∨
      (s.name = none ∧ seqrDisplayName s = none)) :
    get_seq_region_stats fname srs = none := by
  have hall : processAll initSeqState srs = none := by
    apply processAll_none_of_bad srs initSeqState s hmem
    rcases hbad with h | h | h
    · exact Or.inl h
    · exact Or.inr (Or.inl h)
    · exact Or.inr (Or.inr h.2)
  unfold get_seq_region_stats
  rw [hall]
  rfl

/-- C2 (witness): the amended claim applied to a concrete descriptor
missing `length`. -/
theorem claim_c2_witness :
    get_seq_region_stats "seq_region.json" [c2badLen] = none :=
  claim_c2 "seq_region.json" [c2badLen] c2badLen (List.mem_singleton.mpr rfl)
    (Or.inr (Or.inl rfl))

/-- C3 (counterexample): on the spec's own scenario (lengths 1000 and 3000)
the mean row of the rendered output is `"     2000\tSequence length mean"`:
the code pushes the float mean through `"%9d"`, so the claimed rendering
`2000.0` (the mean as a floating-point value) never appears. -/
theorem claim_c3_counterexample :
    get_seq_region_stats "seq_region.json" scenarioSrs =
      some [ "seq_region.json", "Total coord_systems 1",
             "\nCoord_system: chromosome",
             "        2\tNumber of sequences", "     4000\tSequence length sum",
             "     1000\tSequence length minimum",
             "     2000\tSequence length mean",
             "     3000\tSequence length maximum", "\n" ] ∧
    padLeft 9 "2000.0" ++ "\tSequence length mean" ≠
      "     2000\tSequence length mean" :=
  ⟨scenario_stats_eval, by decide⟩

/-- C3 (amended): for every coordinate-system group of a successful run the
output contains the mean row, whose numeric value is the exact arithmetic
mean truncated toward zero to an integer — hence the exact mean itself
whenever that mean is a whole number — padded to width 9. -/
theorem claim_c3 (srs : List SeqRegion) (st : SeqState)
    (h : processAll initSeqState srs = some st) (c : String) (lens : List Int)
    (hm : (c, lens) ∈ st.coord_systems) (fname : String) (out : List String)
    (hout : get_seq_region_stats fname srs = some out) :
    fmtRow (pyTrunc (listMeanQ lens)) "Sequence length mean" ∈ out ∧
    ((listMeanQ lens).den = 1 →
      ((pyTrunc (listMeanQ lens) : Int) : ℚ) = listMeanQ lens) := by
  constructor
  · unfold get_seq_region_stats at hout
    rw [h] at hout
    have hout2 : renderSeqStats fname st = out := Option.some.inj hout
    rw [← hout2]
    unfold renderSeqStats
    refine List.mem_append.mpr (Or.inl ?_)
    refine List.mem_append.mpr (Or.inl ?_)
    refine List.mem_append.mpr (Or.inr ?_)
    refine List.mem_flatMap.mpr ⟨(c, lens), hm, ?_⟩
    simp [groupLines]
  · intro hden
    have hq : (((listMeanQ lens).num : Int) : ℚ) = listMeanQ lens :=
      Rat.den_eq_one_iff _ |>.mp hden
    rw [← hq]
    unfold pyTrunc
    by_cases h0 : (0 : ℚ) ≤ ((listMeanQ lens).num : ℚ)
    · rw [if_pos h0]
      simp
    · rw [if_neg h0]
      simp

/-- C3 (witness): the amended claim at the scenario input, whose group mean
2000 is a whole number. -/
theorem claim_c3_witness :
    fmtRow (pyTrunc (listMeanQ [1000, 3000])) "Sequence length mean" ∈
      [ "seq_region.json", "Total coord_systems 1",
        "\nCoord_system: chromosome",
        "        2\tNumber of sequences", "     4000\tSequence length sum",
        "     1000\tSequence length minimum",
        "     2000\tSequence length mean",
        "     3000\tSequence length maximum", "\n" ] ∧
    ((listMeanQ [1000, 3000]).den = 1 →
      ((pyTrunc (listMeanQ [1000, 3000]) : Int) : ℚ) = listMeanQ [1000, 3000]) :=
  claim_c3 scenarioSrs ⟨[("chromosome", [1000, 3000])], 0, [], []⟩ (by decide)
    "chromosome" [1000, 3000] (List.mem_singleton.mpr rfl) "seq_region.json"
    [ "seq_region.json", "Total coord_systems 1",
      "\nCoord_system: chromosome",
      "        2\tNumber of sequences", "     4000\tSequence length sum",
      "     1000\tSequence length minimum",
      "     2000\tSequence length mean",
      "     3000\tSequence length maximum", "\n" ] scenario_stats_eval

/-- C5: in a successful run on a non-empty input, the sum over all
coordinate-system groups of the per-group length sums equals the sum of all
input lengths — every descriptor's length lands in exactly one group. -/
theorem claim_c5 (srs : List SeqRegion) (h0 : srs ≠ []) (st : SeqState)
    (h : processAll initSeqState srs = some st) :
    groupSums st.coord_systems = (srs.filterMap SeqRegion.length).sum := by
  have h2 := processAll_groupSums srs initSeqState st h
  rw [h2]
  simp [initSeqState, groupSums]

/-- C5 (witness): the scenario input, whose single group sums to 4000. -/
theorem claim_c5_witness :
    groupSums [("chromosome", [1000, 3000])] =
      (scenarioSrs.filterMap SeqRegion.length).sum :=
  claim_c5 scenarioSrs (by decide) ⟨[("chromosome", [1000, 3000])], 0, [], []⟩
    (by decide)

/-- C7 (counterexample): the descriptor `c7seqr` has a GenBank synonym
(whose name is the empty string), yet its display name is the descriptor's
own `chr1`, not that synonym's name — the selection tests truthiness, so
the claim's "the first such entry's name is used" fails here. -/
theorem claim_c7_counterexample :
    (∃ syns, c7seqr.synonyms = some syns ∧
      (syns.filter (fun x => x.source == "GenBank")).head? =
        some { source := "GenBank", name := "" }) ∧
    seqrDisplayName c7seqr = some "chr1" ∧ "chr1" ≠ "" ∧
    get_seq_region_stats "seq_region.json" [c7seqr] =
      some [ "seq_region.json", "Total coord_systems 1",
             "\nCoord_system: chromosome",
             "        1\tNumber of sequences", "      100\tSequence length sum",
             "      100\tSequence length minimum",
             "      100\tSequence length mean",
             "      100\tSequence length maximum",
             "\nSpecial", "        1\tsequences with location",
             "\t\t\tchr1 = loc1", "\n" ] :=
  ⟨⟨[{ source := "GenBank", name := "" }], rfl, by decide⟩, by decide,
    by decide, c7seqr_stats_eval⟩

/-- C7 (amended): the display name is the first GenBank synonym's name when
that name is NON-EMPTY; with no GenBank synonym (or no synonym list) it is
the descriptor's own name; and the spec's `chr1`/`CM000001.1` example
renders with the synonym name in the location and codon-table lines. -/
theorem claim_c7 :
    (∀ (s : SeqRegion) (syns : List Synonym) (g : Synonym) (rest : List Synonym),
        s.synonyms = some syns →
        syns.filter (fun x => x.source == "GenBank") = g :: rest →
        g.name ≠ "" → seqrDisplayName s = some g.name) ∧
    (∀ (s : SeqRegion) (syns : List Synonym),
        s.synonyms = some syns →
        syns.filter (fun x => x.source == "GenBank") = [] →
        seqrDisplayName s = s.name) ∧
    (∀ s : SeqRegion, s.synonyms = none → seqrDisplayName s = s.name) ∧
    get_seq_region_stats "seq_region.json" [chr1Seqr] =
      some [ "seq_region.json", "Total coord_systems 1",
             "\nCoord_system: chromosome",
             "        1\tNumber of sequences", "     1000\tSequence length sum",
             "     1000\tSequence length minimum",
             "     1000\tSequence length mean",
             "     1000\tSequence length maximum",
             "\nSpecial", "        1\tsequences with location",
             "\t\t\tCM000001.1 = X", "        1\tsequences with codon_table",
             "\t\t\tCM000001.1 = 2", "\n" ] := by
  refine ⟨?_, ?_, ?_, chr1_stats_eval⟩
  · intro s syns g rest h1 h2 h3
    rw [seqrDisplayName_eq_some s syns h1, h2]
    show (if g.name = "" then s.name else some g.name) = some g.name
    rw [if_neg h3]
  · intro s syns h1 h2
    rw [seqrDisplayName_eq_some s syns h1, h2]
  · intro s h1
    unfold seqrDisplayName
    rw [h1]

/-- C7 (witness): the first branch of the amended claim applied to the
spec's `chr1`/`CM000001.1` example. -/
theorem claim_c7_witness :
    seqrDisplayName chr1Seqr = some "CM000001.1" :=
  claim_c7.1 chr1Seqr [{ source := "GenBank", name := "CM000001.1" }]
    { source := "GenBank", name := "CM000001.1" } [] rfl rfl (by decide)

/-- C9: every coordinate-system group of a successful run reports
minimum ≤ mean ≤ maximum, where the reported mean is the truncated exact
mean the code prints. -/
theorem claim_c9 (srs : List SeqRegion) (st : SeqState)
    (h : processAll initSeqState srs = some st) (c : String) (lens : List Int)
    (hm : (c, lens) ∈ st.coord_systems) :
    listMin lens ≤ pyTrunc (listMeanQ lens) ∧
    pyTrunc (listMeanQ lens) ≤ listMax lens := by
  have hne : lens ≠ [] := by
    have h2 := processAll_groups_ne_nil srs initSeqState st h
      (by simp [initSeqState]) (c, lens) hm
    simpa using h2
  exact ⟨listMin_le_pyTrunc_mean lens hne, pyTrunc_mean_le_listMax lens hne⟩

/-- C9 (witness): the scenario group with lengths 1000 and 3000. -/
theorem claim_c9_witness :
    listMin [1000, 3000] ≤ pyTrunc (listMeanQ [1000, 3000]) ∧
    pyTrunc (listMeanQ [1000, 3000]) ≤ listMax [1000, 3000] :=
  claim_c9 scenarioSrs ⟨[("chromosome", [1000, 3000])], 0, [], []⟩ (by decide)
    "chromosome" [1000, 3000] (List.mem_singleton.mpr rfl)

/-- C10: when the first GenBank synonym's name is the empty string, the
display name falls back to the descriptor's own `name` — the selection
tests truthiness, not presence. -/
theorem claim_c10 (s : SeqRegion) (syns : List Synonym) (g : Synonym)
    (rest : List Synonym) (h1 : s.synonyms = some syns)
    (h2 : syns.filter (fun x => x.source == "GenBank") = g :: rest)
    (h3 : g.name = "") :
    seqrDisplayName s = s.name := by
  rw [seqrDisplayName_eq_some s syns h1, h2]
  show (if g.name = "" then s.name else some g.name) = s.name
  rw [if_pos h3]

/-- C10 (witness): `c7seqr` (own name `chr1`, GenBank synonym with empty
name) displays as `chr1`. -/
theorem claim_c10_witness : seqrDisplayName c7seqr = c7seqr.name :=
  claim_c10 c7seqr [{ source := "GenBank", name := "" }]
    { source := "GenBank", name := "" } [] rfl rfl rfl

/-! ### Claims about the Feature Biotype Analyzer -/

/-- Two top-level mRNA features: the first with id `m1`, the second `m2`. -/
def c1recs : List (List Feature) :=
  [[Feature.mk "mRNA" "m1" [], Feature.mk "mRNA" "m2" []]]

/-- The spec's ordering example: feature types `mRNA, gene, mRNA`. -/
def c6recs : List (List Feature) :=
  [[Feature.mk "mRNA" "m1" [], Feature.mk "gene" "g1" [], Feature.mk "mRNA" "m2" []]]

unseal String.ltb List.merge List.mergeSort in
/-- C1 (counterexample): two mRNA features seen in order `m1`, `m2` leave
`m1` — the FIRST seen id — as the rendered example, not the most recently
seen `m2`: `increment_biotype` writes the example only on first insertion. -/
theorem claim_c1_counterexample :
    List.lookup "mRNA" (biotypesOf c1recs) =
      some { count := 2, exampleId := "m1" } ∧
    parse_gff3 c1recs = ["        2\t                mRNA\tID = m1"] ∧
    parse_gff3 c1recs ≠ ["        2\t                mRNA\tID = m2"] :=
  ⟨by decide, by decide, by decide⟩

/-- C1 (amended): the first occurrence of a biotype initializes count=1 and
stores that feature's id; each subsequent occurrence increments the count
and leaves the stored example unchanged, so the rendered example id is the
id of the FIRST feature of that biotype in visit order. -/
theorem claim_c1 (recs : List (List Feature)) (k : String) (d : BioData)
    (h : List.lookup k (biotypesOf recs) = some d) :
    ∃ f0 fs, (visitOrder recs).filter (fun f => f.type == k) = f0 :: fs ∧
      d.exampleId = f0.id ∧ d.count = fs.length + 1 := by
  rw [biotypesOf_eq, lookup_tally] at h
  cases hfl : (visitOrder recs).filter (fun f => f.type == k) with
  | nil => rw [hfl] at h; exact Option.noConfusion h
  | cons f0 fs =>
    rw [hfl] at h
    simp only [Option.some.injEq] at h
    exact ⟨f0, fs, rfl, by rw [← h], by rw [← h]⟩

/-- C1 (witness): the amended claim at `c1recs`, biotype mRNA, whose tally
entry is count 2 and example `m1`. -/
theorem claim_c1_witness :
    ∃ f0 fs, (visitOrder c1recs).filter (fun f => f.type == "mRNA") = f0 :: fs ∧
      ({ count := 2, exampleId := "m1" } : BioData).exampleId = f0.id ∧
      ({ count := 2, exampleId := "m1" } : BioData).count = fs.length + 1 :=
  claim_c1 c1recs "mRNA" { count := 2, exampleId := "m1" } (by decide)

theorem child_descend_length (subs : List Feature) :
    (subs.flatMap (fun f2 => f2 :: f2.sub_features)).length =
      (subs.map (fun f2 => 1 + f2.sub_features.length)).sum := by
  induction subs with
  | nil => rfl
  | cons f2 rest ih =>
    simp only [List.flatMap_cons, List.length_append, List.length_cons,
      List.map_cons, List.sum_cons, ih]
    omega

theorem featDescend_length (f : Feature) :
    (featDescend f).length =
      1 + (f.sub_features.map (fun f2 => 1 + f2.sub_features.length)).sum := by
  unfold featDescend
  rw [List.length_cons, child_descend_length]
  omega

theorem visit_feats_length (feats : List Feature) :
    (feats.flatMap featDescend).length =
      (feats.map
        (fun f => 1 + (f.sub_features.map (fun f2 => 1 + f2.sub_features.length)).sum)).sum := by
  induction feats with
  | nil => rfl
  | cons f fs ih =>
    simp only [List.flatMap_cons, List.length_append, List.map_cons,
      List.sum_cons, ih, featDescend_length]

theorem visitOrder_length (recs : List (List Feature)) :
    (visitOrder recs).length =
      ((recs.flatMap (fun feats => feats)).map
        (fun f => 1 + (f.sub_features.map (fun f2 => 1 + f2.sub_features.length)).sum)).sum := by
  induction recs with
  | nil => rfl
  | cons feats rest ih =>
    simp only [visitOrder, List.flatMap_cons, List.length_append,
      List.map_append, List.sum_append]
    rw [visit_feats_length]
    unfold visitOrder at ih
    rw [ih]

/-- C4: the counts over all biotype tally entries sum to the number of
visited features — exactly the top-level features, their children and their
grandchildren, deeper nesting contributing nothing. -/
theorem claim_c4 (recs : List (List Feature)) :
    sumCounts (biotypesOf recs) = (visitOrder recs).length ∧
    (visitOrder recs).length =
      ((recs.flatMap (fun feats => feats)).map
        (fun f => 1 + (f.sub_features.map (fun f2 => 1 + f2.sub_features.length)).sum)).sum := by
  refine ⟨?_, visitOrder_length recs⟩
  rw [biotypesOf_eq, sumCounts_foldl]
  simp [sumCounts]

theorem sortedKeys_sorted (recs : List (List Feature)) :
    (sortedKeys recs).Pairwise (fun a b : String => a ≤ b) := by
  unfold sortedKeys
  have htrans : ∀ a b c : String, strLeB a b → strLeB b c → strLeB a c := by
    intro a b c hab hbc
    simp only [strLeB, decide_eq_true_eq] at *
    exact le_trans hab hbc
  have htotal : ∀ a b : String, strLeB a b || strLeB b a := by
    intro a b
    simp only [strLeB, Bool.or_eq_true, decide_eq_true_eq]
    exact le_total a b
  have h := @List.sorted_mergeSort String strLeB htrans htotal
    ((biotypesOf recs).map Prod.fst)
  exact h.imp (fun hab => by simpa [strLeB] using hab)

theorem sortedKeys_nodup (recs : List (List Feature)) :
    (sortedKeys recs).Nodup := by
  unfold sortedKeys
  have h1 : ((biotypesOf recs).map Prod.fst).Nodup := by
    rw [biotypesOf_eq]
    exact nodup_keys_foldl _ [] (by simp)
  exact ((List.mergeSort_perm _ _).nodup_iff).mpr h1

theorem sortedKeys_mem (recs : List (List Feature)) (b : String) :
    b ∈ sortedKeys recs ↔ b ∈ (visitOrder recs).map Feature.type := by
  unfold sortedKeys
  rw [List.mem_mergeSort, biotypesOf_eq]
  exact mem_keys_tally _ b

unseal String.ltb List.merge List.mergeSort in
/-- C6: the biotype output lines are sorted ascending by biotype name, one
line per distinct biotype (the key list is duplicate-free and holds exactly
the visited biotypes); on the `mRNA, gene, mRNA` example the output is the
gene line followed by the mRNA line with count 2. -/
theorem claim_c6 :
    (∀ recs : List (List Feature),
      (sortedKeys recs).Pairwise (fun a b : String => a ≤ b) ∧
      (sortedKeys recs).Nodup ∧
      (∀ b : String, b ∈ sortedKeys recs ↔ b ∈ (visitOrder recs).map Feature.type) ∧
      (parse_gff3 recs).length = (sortedKeys recs).length) ∧
    parse_gff3 c6recs =
      [ "        1\t                gene\tID = g1",
        "        2\t                mRNA\tID = m1" ] := by
  constructor
  · intro recs
    exact ⟨sortedKeys_sorted recs, sortedKeys_nodup recs,
      fun b => sortedKeys_mem recs b, by simp [parse_gff3]⟩
  · rfl

/-! ### Claim about the manifest resolver -/

/-- A manifest with one compound entry (subname `dna`, file `dna.fa`) and
one plain entry (file `genes.gff3`), rooted at `/data`. -/
def c8manifest : List (String × ManifestEntry) :=
  [ ("fasta", { file := none, subs := [("dna", { file := some "dna.fa" })] })
  , ("gff3", { file := some "genes.gff3", subs := [] }) ]

/-- C8: the top-level entry is resolved to the joined path, but the
sub-entry of the compound entry becomes the PAIR `(root, relative)` — the
source writes `manifest_root, file_name` (a tuple), not
`manifest_root / file_name` — so the result differs from the spec's
described resolution, which joins every relative path. -/
theorem claim_c8 :
    get_manifest "/data" c8manifest =
      [ ("fasta", ResolvedEntry.resolvedSubs
          [("dna", ResolvedSub.pathPair "/data" "dna.fa")])
      , ("gff3", ResolvedEntry.joinedPath "/data/genes.gff3") ] ∧
    get_manifest_spec "/data" c8manifest =
      [ ("fasta", ResolvedEntry.resolvedSubs
          [("dna", ResolvedSub.joined "/data/dna.fa")])
      , ("gff3", ResolvedEntry.joinedPath "/data/genes.gff3") ] ∧
    get_manifest "/data" c8manifest ≠ get_manifest_spec "/data" c8manifest :=
  ⟨by decide, by decide, by decide⟩

end ManifestStats
